import Mathlib

/-!
Shallow embedding of the monkey-lang-rust tree-walking interpreter
(`src/evaluator/mod.rs`, `src/parser/ast.rs`, `src/token.rs`,
`src/object/builtin.rs`) together with proofs checking the repository's
specification against it.

The evaluator is embedded as a fuel-indexed state-passing function.  The
`Environment` type (file `object/mod.rs`, not part of the provided sources)
is modelled from the spec as an arena of scope frames addressed by handles,
with shared ownership: several closures may reference the same frame and a
`set` through one handle is visible through every alias.  Machine `i64`
values are modelled as `Int`; the two places where host-level machine
behaviour is observable and relevant to the spec are kept: division panics
on a zero divisor, and the `rt as u32` cast in the power operator truncates
the exponent to 32 bits.
-/

namespace Monkey

/-- Token kinds from `src/token.rs`, plus the `POWER` variant that the
snapshot of `src/evaluator/mod.rs` matches on (the evaluator dispatches on
`Token::POWER` for `^`). -/
inductive Token where
  | ILLIGAL
  | EOF
  | IDENT (s : String)
  | INT (i : Int)
  | ASSIGN
  | PLUS
  | MINUS
  | BANG
  | ASTERISK
  | SLASH
  | POWER
  | LT
  | GT
  | EQ
  | NOTEQ
  | COMMA
  | SEMICOLON
  | LPAREN
  | RPAREN
  | LBRACE
  | RBRACE
  | FUNCTION
  | LET
  | IF
  | ELSE
  | RETURN
  | TRUE
  | FALSE
deriving DecidableEq, Repr

mutual

/-- AST statements from `src/parser/ast.rs` (`Statement`). -/
inductive Statement where
  | LetStmt (name : String) (value : Expression)
  | ReturnStmt (value : Expression)
  | ExpressionStmt (expression : Expression)

/-- AST expressions from `src/parser/ast.rs` (`Expression`), plus the
`Complex` literal variant that the evaluator snapshot matches on. -/
inductive Expression where
  | Ident (s : String)
  | Integer (i : Int)
  | Complex (re im : Int)
  | Boolean (b : Bool)
  | Prefix (operator : Token) (right : Expression)
  | Infix (left : Expression) (operator : Token) (right : Expression)
  | IfExpr (condition : Expression) (consequence : List Statement)
      (alternative : List Statement)
  | Function (parameter : List String) (body : List Statement)
  | Call (function : Expression) (arguments : List Expression)

end

/-- `BlockStmt` alias from `src/parser/ast.rs`. -/
abbrev BlockStmt := List Statement

mutual

/-- Structural equality on statements (the derived `PartialEq` of the Rust
AST). -/
def stmtBeq : Statement → Statement → Bool
  | .LetStmt n1 v1, .LetStmt n2 v2 => n1 = n2 && exprBeq v1 v2
  | .ReturnStmt v1, .ReturnStmt v2 => exprBeq v1 v2
  | .ExpressionStmt e1, .ExpressionStmt e2 => exprBeq e1 e2
  | _, _ => false

/-- Structural equality on expressions (the derived `PartialEq` of the Rust
AST). -/
def exprBeq : Expression → Expression → Bool
  | .Ident a, .Ident b => a = b
  | .Integer a, .Integer b => a = b
  | .Complex a b, .Complex c d => a = c && b = d
  | .Boolean a, .Boolean b => a = b
  | .Prefix o1 r1, .Prefix o2 r2 => o1 = o2 && exprBeq r1 r2
  | .Infix l1 o1 r1, .Infix l2 o2 r2 => exprBeq l1 l2 && o1 = o2 && exprBeq r1 r2
  | .IfExpr c1 q1 a1, .IfExpr c2 q2 a2 =>
    exprBeq c1 c2 && stmtListBeq q1 q2 && stmtListBeq a1 a2
  | .Function p1 b1, .Function p2 b2 => p1 = p2 && stmtListBeq b1 b2
  | .Call f1 a1, .Call f2 a2 => exprBeq f1 f2 && exprListBeq a1 a2
  | _, _ => false

/-- Structural equality on statement lists. -/
def stmtListBeq : List Statement → List Statement → Bool
  | [], [] => true
  | s1 :: r1, s2 :: r2 => stmtBeq s1 s2 && stmtListBeq r1 r2
  | _, _ => false

/-- Structural equality on expression lists. -/
def exprListBeq : List Expression → List Expression → Bool
  | [], [] => true
  | e1 :: r1, e2 :: r2 => exprBeq e1 e2 && exprListBeq r1 r2
  | _, _ => false

end

/-- Runtime objects (`Object` in `object/mod.rs`, as used by
`src/evaluator/mod.rs`).  A `Function`'s captured environment is a handle
into the environment arena (shared reference per the spec). -/
inductive Object where
  | Integer (value : Int)
  | Complex (re im : Int)
  | Boolean (value : Bool)
  | Null
  | ReturnValue (value : Object)
  | Function (parameter : List String) (body : BlockStmt) (env : Nat)
  | DeclareVariable

/-- Structural equality on objects (the derived `PartialEq` of the Rust
`Object`); this is what the `==`/`!=` branch of `eval_infix_expr` uses.
Two `Function` objects compare equal when parameters, body and captured
environment agree. -/
def objBeq : Object → Object → Bool
  | .Integer a, .Integer b => a = b
  | .Complex a b, .Complex c d => a = c && b = d
  | .Boolean a, .Boolean b => a = b
  | .Null, .Null => true
  | .ReturnValue a, .ReturnValue b => objBeq a b
  | .Function p1 b1 e1, .Function p2 b2 e2 =>
    p1 = p2 && stmtListBeq b1 b2 && e1 = e2
  | .DeclareVariable, .DeclareVariable => true
  | _, _ => false

/-- Evaluation errors (`MonkeyErr`), variants as constructed by
`src/evaluator/mod.rs` and `src/object/builtin.rs`. -/
inductive MonkeyErr where
  | EvalNotFunction (got : Object)
  | EvalIdentNotFound (name_got : String)
  | EvalUnknownPrefix (operator : Token) (right : Object)
  | EvalUnknownInfix (left : Object) (operator : Token) (right : Object)
  | EvalTypeMismatch (left : Object) (operator : Token) (right : Object)
  | EvalPowErr
  | EvalErr (msg : String)

/-- Outcome of running a piece of embedded Rust code: a normal `Result`
value (`ok`/`err`), a host panic (unguarded `unwrap`/division), or fuel
exhaustion of the embedding (the Rust code would simply keep recursing). -/
inductive Res (α : Type) where
  | ok (a : α)
  | err (e : MonkeyErr)
  | panicked
  | outOfFuel

/-- Rust's `?` operator / short-circuiting on results. -/
def Res.bind {α β : Type} : Res α → (α → Res β) → Res β
  | .ok a, f => f a
  | .err e, _ => .err e
  | .panicked, _ => .panicked
  | .outOfFuel, _ => .outOfFuel

/-- The canonical `TRUE` object (`const TRUE` in `src/evaluator/mod.rs`). -/
def TRUE : Object := .Boolean true

/-- The canonical `FALSE` object (`const FALSE` in `src/evaluator/mod.rs`). -/
def FALSE : Object := .Boolean false

/-- The canonical `NULL` object (`const NULL` in `src/evaluator/mod.rs`). -/
def NULL : Object := .Null

/-- Modelled from the spec: one scope layer of an `Environment`
(`object/mod.rs` is not among the provided sources): a binding map for the
current layer plus an optional parent handle for fallthrough lookup. -/
structure Frame where
  bindings : List (String × Object)
  parent : Option Nat

/-- Modelled from the spec: the arena of environment frames; an
`Environment` value is a handle (index) into this store, so that several
closures can share one environment and see each other's updates. -/
abbrev EnvStore := List Frame

/-- Insert-or-overwrite in one binding map (`HashMap::insert` of the
current layer). -/
def setBinding : List (String × Object) → String → Object → List (String × Object)
  | [], name, value => [(name, value)]
  | (k, v) :: rest, name, value =>
    if k = name then (k, value) :: rest
    else (k, v) :: setBinding rest name value

/-- Lookup in one binding map. -/
def lookupBinding : List (String × Object) → String → Option Object
  | [], _ => none
  | (k, v) :: rest, name => if k = name then some v else lookupBinding rest name

/-- Modelled from the spec: `Environment::new()` — a fresh root frame; the
returned handle is the index of the new frame. -/
def Environment.new (s : EnvStore) : Nat × EnvStore :=
  (s.length, s ++ [⟨[], none⟩])

/-- Modelled from the spec: `Environment::new_enclosed(parent)` — a child
frame with read-through access to `parent`. -/
def Environment.new_enclosed (s : EnvStore) (parent : Nat) : Nat × EnvStore :=
  (s.length, s ++ [⟨[], some parent⟩])

/-- Modelled from the spec: `Environment::set` — inserts/overwrites a
binding in the current layer only and returns the sentinel
`DeclareVariable` as the statement result. -/
def Environment.set (s : EnvStore) (h : Nat) (name : String) (value : Object) :
    Object × EnvStore :=
  match s.get? h with
  | some fr =>
    (.DeclareVariable, s.set h { fr with bindings := setBinding fr.bindings name value })
  | none => (.DeclareVariable, s)

/-- Parent-chain walk for `Environment::get`, with a gas bound to stay
total on arbitrary stores (on stores built by `new`/`new_enclosed` parent
handles strictly decrease, so `s.length` gas always suffices). -/
def envGetAux : Nat → EnvStore → Nat → String → Option Object
  | 0, _, _, _ => none
  | g + 1, s, h, name =>
    match s.get? h with
    | none => none
    | some fr =>
      match lookupBinding fr.bindings name with
      | some v => some v
      | none =>
        match fr.parent with
        | none => none
        | some p => envGetAux g s p name

/-- Modelled from the spec: `Environment::get` — looks in the current
layer, then walks outward through parents. -/
def Environment.get (s : EnvStore) (h : Nat) (name : String) : Option Object :=
  envGetAux s.length s h name

/-- `Object::to_complex` — modelled from the spec's numeric-conversion
helper (`object/mod.rs` is not among the provided sources): an `Integer`
converts to a zero-imaginary `Complex`, a `Complex` to itself, anything
else to `None`.  This is the predicate `eval_infix_expr` dispatches on. -/
def Object.to_complex : Object → Option Object
  | .Integer value => some (.Complex value 0)
  | .Complex re im => some (.Complex re im)
  | _ => none

/-- `Object::is_same_type` — modelled from the spec's type-name helper:
true exactly when the two objects carry the same variant tag. -/
def Object.is_same_type : Object → Object → Bool
  | .Integer _, .Integer _ => true
  | .Complex _ _, .Complex _ _ => true
  | .Boolean _, .Boolean _ => true
  | .Null, .Null => true
  | .ReturnValue _, .ReturnValue _ => true
  | .Function _ _ _, .Function _ _ _ => true
  | .DeclareVariable, .DeclareVariable => true
  | _, _ => false

/-- `is_truthy` from `src/evaluator/mod.rs`: `NULL` and `FALSE` are falsy,
everything else is truthy. -/
def is_truthy : Object → Bool
  | .Null => false
  | .Boolean false => false
  | _ => true

/-- `eval_bang_operator_expr` from `src/evaluator/mod.rs`. -/
def eval_bang_operator_expr (right : Object) : Res Object :=
  match right with
  | .Boolean true => .ok FALSE
  | .Boolean false => .ok TRUE
  | .Null => .ok TRUE
  | _ => .ok FALSE

/-- `eval_minus_operator_expr` from `src/evaluator/mod.rs`. -/
def eval_minus_operator_expr (right : Object) : Res Object :=
  match right with
  | .Integer value => .ok (.Integer (-value))
  | .Complex re im => .ok (.Complex (-re) (-im))
  | _ => .err (.EvalUnknownPrefix .MINUS right)

/-- `eval_prefix_expr` from `src/evaluator/mod.rs`. -/
def eval_prefix_expr (operator : Token) (right : Object) : Res Object :=
  match operator with
  | .BANG => eval_bang_operator_expr right
  | .MINUS => eval_minus_operator_expr right
  | _ => .err (.EvalUnknownPrefix operator right)

/-- `eval_integer_infix_expr` from `src/evaluator/mod.rs`.  `lf / rt` is
Rust's truncating `i64` division, which panics on a zero divisor;
`lf.pow(rt as u32)` truncates the exponent to its low 32 bits. -/
def eval_integer_infix_expr (operator : Token) (lf rt : Int) : Res Object :=
  match operator with
  | .PLUS => .ok (.Integer (lf + rt))
  | .MINUS => .ok (.Integer (lf - rt))
  | .ASTERISK => .ok (.Integer (lf * rt))
  | .SLASH => if rt = 0 then .panicked else .ok (.Integer (lf.tdiv rt))
  | .POWER =>
    if 0 ≤ rt then .ok (.Integer (lf ^ (rt.toNat % 4294967296)))
    else .err .EvalPowErr
  | .LT => .ok (.Boolean (decide (lf < rt)))
  | .GT => .ok (.Boolean (decide (rt < lf)))
  | .EQ => .ok (.Boolean (decide (lf = rt)))
  | .NOTEQ => .ok (.Boolean (!decide (lf = rt)))
  | _ => .err (.EvalUnknownInfix (.Integer lf) operator (.Integer rt))

/-- `eval_complex_infix_expr` from `src/evaluator/mod.rs`: `+ - *` by the
standard complex rules, `== !=` componentwise; everything else is
`UnknownInfix` carrying the complexified operands. -/
def eval_complex_infix_expr (operator : Token) (lf_re lf_im rt_re rt_im : Int) :
    Res Object :=
  match operator with
  | .PLUS => .ok (.Complex (lf_re + rt_re) (lf_im + rt_im))
  | .MINUS => .ok (.Complex (lf_re - rt_re) (lf_im - rt_im))
  | .ASTERISK =>
    .ok (.Complex (lf_re * rt_re - lf_im * rt_im) (lf_re * rt_im + lf_im * rt_re))
  | .EQ => .ok (.Boolean (decide (lf_re = rt_re) && decide (lf_im = rt_im)))
  | .NOTEQ => .ok (.Boolean (!decide (lf_re = rt_re) || !decide (lf_im = rt_im)))
  | _ =>
    .err (.EvalUnknownInfix (.Complex lf_re lf_im) operator (.Complex rt_re rt_im))

/-- `eval_num_infix_expr` from `src/evaluator/mod.rs`: both operands are
converted with `to_complex` (the Rust code unwraps, which would panic if a
`None` slipped through); two zero-imaginary values take the integer path,
otherwise the complex path. -/
def eval_num_infix_expr (operator : Token) (lf rt : Object) : Res Object :=
  match lf.to_complex, rt.to_complex with
  | some (.Complex lfre lfim), some (.Complex rtre rtim) =>
    if lfim = 0 ∧ rtim = 0 then eval_integer_infix_expr operator lfre rtre
    else eval_complex_infix_expr operator lfre lfim rtre rtim
  | some _, some _ => .err (.EvalUnknownInfix lf operator rt)
  | _, _ => .panicked

/-- `eval_infix_expr` from `src/evaluator/mod.rs`: numeric operands go to
`eval_num_infix_expr`; same-kind operands support only `==`/`!=`
(structural equality); different kinds are a `TypeMismatch`. -/
def eval_infix_expr (operator : Token) (left right : Object) : Res Object :=
  if left.to_complex.isSome && right.to_complex.isSome then
    eval_num_infix_expr operator left right
  else if Object.is_same_type left right then
    match operator with
    | .EQ => if objBeq left right then .ok TRUE else .ok FALSE
    | .NOTEQ => if !objBeq left right then .ok TRUE else .ok FALSE
    | _ => .err (.EvalUnknownInfix left operator right)
  else .err (.EvalTypeMismatch left operator right)

/-- `eval_identifier` from `src/evaluator/mod.rs`. -/
def eval_identifier (ident : String) (s : EnvStore) (h : Nat) : Res Object :=
  match Environment.get s h ident with
  | some val => .ok val
  | none => .err (.EvalIdentNotFound ident)

/-- Type of the one-step-smaller evaluator that the loop helpers below are
parametrised by (in the Rust source they simply call `eval` recursively;
the fuel recursion of the embedding is tied at `eval`). -/
abbrev Ev := Statement → EnvStore → Nat → Res (Object × EnvStore)

/-- `eval_stmts` from `src/evaluator/mod.rs`: run a block, starting from
`NULL`, stopping at (and propagating, without unwrapping) the first
`ReturnValue`. -/
def eval_stmtsF (ev : Ev) : BlockStmt → EnvStore → Nat → Res (Object × EnvStore)
  | [], s, _ => .ok (NULL, s)
  | statement :: rest, s, h =>
    Res.bind (ev statement s h) fun (result, s1) =>
      match result with
      | .ReturnValue value => .ok (.ReturnValue value, s1)
      | result =>
        match rest with
        | [] => .ok (result, s1)
        | _ :: _ => eval_stmtsF ev rest s1 h

/-- `eval_program` from `src/evaluator/mod.rs`: like `eval_stmts`, but the
first `ReturnValue` is unwrapped and becomes the program's result. -/
def eval_programF (ev : Ev) : List Statement → EnvStore → Nat → Res (Object × EnvStore)
  | [], s, _ => .ok (NULL, s)
  | statement :: rest, s, h =>
    Res.bind (ev statement s h) fun (result, s1) =>
      match result with
      | .ReturnValue value => .ok (value, s1)
      | result =>
        match rest with
        | [] => .ok (result, s1)
        | _ :: _ => eval_programF ev rest s1 h

/-- `eval_expressions` from `src/evaluator/mod.rs`: evaluate arguments
left to right, short-circuiting on the first error. -/
def eval_expressionsF (ev : Ev) :
    List Expression → EnvStore → Nat → Res (List Object × EnvStore)
  | [], s, _ => .ok ([], s)
  | e :: es, s, h =>
    Res.bind (ev (.ExpressionStmt e) s h) fun (evaluated, s1) =>
      Res.bind (eval_expressionsF ev es s1 h) fun (rest, s2) =>
        .ok (evaluated :: rest, s2)

/-- `eval_if_expr` from `src/evaluator/mod.rs`. -/
def eval_if_exprF (ev : Ev) (cond : Object) (consq alter : BlockStmt)
    (s : EnvStore) (h : Nat) : Res (Object × EnvStore) :=
  if is_truthy cond then eval_stmtsF ev consq s h
  else if !alter.isEmpty then eval_stmtsF ev alter s h
  else .ok (NULL, s)

/-- The parameter-binding loop of `extended_function_env`
(`src/evaluator/mod.rs`): `args.get(i).unwrap()` panics as soon as the
argument list is shorter than the parameter list; arguments beyond the
parameter list are never read. -/
def bindParams : List String → List Object → EnvStore → Nat → Res EnvStore
  | [], _, s, _ => .ok s
  | _ :: _, [], _, _ => .panicked
  | p :: ps, a :: rest, s, h => bindParams ps rest (Environment.set s h p a).2 h

/-- `extended_function_env` from `src/evaluator/mod.rs`: a child
environment enclosed by the closure's captured environment, parameters
bound positionally. -/
def extended_function_env (parameter : List String) (args : List Object)
    (s : EnvStore) (env : Nat) : Res (Nat × EnvStore) :=
  Res.bind
    (bindParams parameter args (Environment.new_enclosed s env).2
      (Environment.new_enclosed s env).1)
    fun s2 => .ok ((Environment.new_enclosed s env).1, s2)

/-- `apply_function` from `src/evaluator/mod.rs`: run the body in the
extended environment and unwrap a trailing `ReturnValue` one level. -/
def apply_functionF (ev : Ev) (function : Object) (args : List Object)
    (s : EnvStore) : Res (Object × EnvStore) :=
  match function with
  | .Function parameter body env =>
    Res.bind (extended_function_env parameter args s env) fun (h, s1) =>
      Res.bind (eval_stmtsF ev body s1 h) fun (evaluated, s2) =>
        match evaluated with
        | .ReturnValue value => .ok (value, s2)
        | evaluated => .ok (evaluated, s2)
  | _ => .err (.EvalNotFunction function)

/-- `eval` from `src/evaluator/mod.rs`, fuel-indexed.  `s` is the arena of
environment frames and `h` the handle of the current environment (the
`&mut Environment` of the source).  Each Rust-level recursive call of
`eval` spends one unit of fuel; `outOfFuel` stands for a computation still
running after that much recursion. -/
def eval : Nat → Statement → EnvStore → Nat → Res (Object × EnvStore)
  | 0, _, _, _ => .outOfFuel
  | fuel + 1, node, s, h =>
    match node with
    | .LetStmt name value =>
      Res.bind (eval fuel (.ExpressionStmt value) s h) fun (val, s1) =>
        .ok (Environment.set s1 h name val)
    | .ReturnStmt value =>
      Res.bind (eval fuel (.ExpressionStmt value) s h) fun (v, s1) =>
        .ok (.ReturnValue v, s1)
    | .ExpressionStmt expression =>
      match expression with
      | .Integer value => .ok (.Integer value, s)
      | .Complex re im => .ok (.Complex re im, s)
      | .Ident value =>
        Res.bind (eval_identifier value s h) fun v => .ok (v, s)
      | .Boolean value => if value then .ok (TRUE, s) else .ok (FALSE, s)
      | .Prefix operator right =>
        Res.bind (eval fuel (.ExpressionStmt right) s h) fun (r, s1) =>
          Res.bind (eval_prefix_expr operator r) fun o => .ok (o, s1)
      | .Infix left operator right =>
        Res.bind (eval fuel (.ExpressionStmt left) s h) fun (l, s1) =>
          Res.bind (eval fuel (.ExpressionStmt right) s1 h) fun (r, s2) =>
            Res.bind (eval_infix_expr operator l r) fun o => .ok (o, s2)
      | .IfExpr condition consequence alternative =>
        Res.bind (eval fuel (.ExpressionStmt condition) s h) fun (c, s1) =>
          eval_if_exprF (eval fuel) c consequence alternative s1 h
      | .Function parameter body => .ok (.Function parameter body h, s)
      | .Call function arguments =>
        Res.bind (eval fuel (.ExpressionStmt function) s h) fun (f, s1) =>
          Res.bind (eval_expressionsF (eval fuel) arguments s1 h) fun (args, s2) =>
            apply_functionF (eval fuel) f args s2

/-- `eval_program` entry point at a given fuel. -/
def eval_program (fuel : Nat) : List Statement → EnvStore → Nat →
    Res (Object × EnvStore) :=
  eval_programF (eval fuel)

/-- `eval_stmts` entry point at a given fuel. -/
def eval_stmts (fuel : Nat) : BlockStmt → EnvStore → Nat →
    Res (Object × EnvStore) :=
  eval_stmtsF (eval fuel)

/-- `apply_function` entry point at a given fuel. -/
def apply_function (fuel : Nat) (function : Object) (args : List Object)
    (s : EnvStore) : Res (Object × EnvStore) :=
  apply_functionF (eval fuel) function args s

/-- The store holding exactly the root environment created by
`Environment::new()` at program start; handle `0` addresses it. -/
def initStore : EnvStore := [⟨[], none⟩]

namespace builtin

/-- Alias so that the constructor named `String` below can still refer to
the string type in its field. -/
abbrev Str := String

/-- Runtime objects of the `src/object/builtin.rs` snapshot
(`Object` with tuple variants, array elements behind `GCBox`).  A `GCBox`
is modelled as a handle (index) into a heap, so that cloning a box shares
the pointee; an `Array` holds the handles of its elements. -/
inductive Object where
  | Integer (value : Int)
  | Boolean (value : Bool)
  | String (value : Str)
  | Array (elems : List Nat)
  | Null

/-- The heap of garbage-collected boxes; `GCBox<Object>` values are
indices into it.  Modelled from the spec: `evaluator/gc.rs` is not among
the provided sources; per the spec, captured/shared values live behind
shared ownership, so cloning a `GCBox` copies the handle, not the
object. -/
abbrev Heap := List Object

/-- `GCBox::new`: allocate a fresh box holding `o`. -/
def GCBox.new (o : Object) (heap : Heap) : Nat × Heap :=
  (heap.length, heap ++ [o])

/-- `Object::type` (`r#type`), the type name used in builtin error
messages. -/
def Object.type : Object → Str
  | .Integer _ => "INTEGER"
  | .Boolean _ => "BOOLEAN"
  | .String _ => "STRING"
  | .Array _ => "ARRAY"
  | .Null => "NULL"

/-- `BuiltInFnt` from `src/object/builtin.rs`. -/
inductive BuiltInFnt where
  | NotBuiltIn
  | Len
  | First
  | Last
  | Rest
  | Push
deriving DecidableEq

/-- `BuiltInFnt::call` from `src/object/builtin.rs`.  Arguments arrive as
`GCBox` handles; `check_arg_len!` (macro not among the provided sources)
is modelled from the spec as an exact-arity check failing with `EvalErr`.
Reading through a dangling handle — impossible for heaps produced by
`GCBox.new` — is a host panic.  In the `Push` arm, `(*arr).clone()`
deep-clones the `Object` one level: for an `Array` this copies the vector
of element handles (the elements stay shared), and the clone gets a fresh
box, so the argument's array is never touched. -/
def BuiltInFnt.call (f : BuiltInFnt) (args : List Nat) (heap : Heap) :
    Res (Nat × Heap) :=
  match f with
  | .Len =>
    match args with
    | [a0] =>
      match heap.get? a0 with
      | some (.String s) => .ok (GCBox.new (.Integer s.utf8ByteSize) heap)
      | some (.Array array) => .ok (GCBox.new (.Integer array.length) heap)
      | some arg =>
        .err (.EvalErr ("Argument to `len` not supported, got " ++ arg.type))
      | none => .panicked
    | _ => .err (.EvalErr "wrong number of arguments")
  | .First =>
    match args with
    | [a0] =>
      match heap.get? a0 with
      | some (.Array array) =>
        match array with
        | x :: _ => .ok (x, heap)
        | [] => .ok (GCBox.new .Null heap)
      | some arg =>
        .err (.EvalErr ("Argument to `first` must be array, got " ++ arg.type))
      | none => .panicked
    | _ => .err (.EvalErr "wrong number of arguments")
  | .Last =>
    match args with
    | [a0] =>
      match heap.get? a0 with
      | some (.Array array) =>
        match array.getLast? with
        | some x => .ok (x, heap)
        | none => .ok (GCBox.new .Null heap)
      | some arg =>
        .err (.EvalErr ("Argument to `last` must be array, got " ++ arg.type))
      | none => .panicked
    | _ => .err (.EvalErr "wrong number of arguments")
  | .Rest =>
    match args with
    | [a0] =>
      match heap.get? a0 with
      | some (.Array array) =>
        match array with
        | _ :: tail => .ok (GCBox.new (.Array tail) heap)
        | [] => .ok (GCBox.new .Null heap)
      | some arg =>
        .err (.EvalErr ("Argument to `rest` must be array, got " ++ arg.type))
      | none => .panicked
    | _ => .err (.EvalErr "wrong number of arguments")
  | .Push =>
    match args with
    | [a0, a1] =>
      match heap.get? a0 with
      | some (.Array array) => .ok (GCBox.new (.Array (array ++ [a1])) heap)
      | some arr =>
        .err (.EvalErr ("Argument to `push` must be array, got " ++ arr.type))
      | none => .panicked
    | _ => .err (.EvalErr "wrong number of arguments")
  | .NotBuiltIn => .ok (GCBox.new .Null heap)

end builtin

mutual

/-- An expression in value position is return-safe when its evaluation can
never produce a `ReturnValue`: every `if`-expression in it has blocks
without (even nested) top-level `return`s.  Function literals may of course
contain `return`s in their bodies — a call unwraps exactly one layer. -/
def safeE : Expression → Bool
  | .Ident _ => true
  | .Integer _ => true
  | .Complex _ _ => true
  | .Boolean _ => true
  | .Prefix _ right => safeE right
  | .Infix left _ right => safeE left && safeE right
  | .IfExpr condition consequence alternative =>
    safeE condition && noRetB consequence && noRetB alternative
  | .Function _ body => safeBody body
  | .Call function arguments => safeE function && safeEList arguments

/-- Return-safety for a list of argument expressions. -/
def safeEList : List Expression → Bool
  | [] => true
  | e :: es => safeE e && safeEList es

/-- A statement in block position is return-safe when its result is either
a return-free object or a single-layer `ReturnValue` of a return-free
object: the value of a `let` or `return` must be a return-safe expression,
while an expression statement may additionally be an `if` whose blocks
unwind with single-layer `return`s. -/
def stmtSafe : Statement → Bool
  | .LetStmt _ value => safeE value
  | .ReturnStmt value => safeE value
  | .ExpressionStmt (.IfExpr condition consequence alternative) =>
    safeE condition && safeBody consequence && safeBody alternative
  | .ExpressionStmt e => safeE e

/-- Return-safety for a block: all of its statements are block-position
safe. -/
def safeBody : List Statement → Bool
  | [] => true
  | st :: rest => stmtSafe st && safeBody rest

/-- A block whose evaluation can never produce a `ReturnValue` at all: no
top-level `return` statement, and every expression in it is value-position
return-safe. -/
def noRetB : List Statement → Bool
  | [] => true
  | .ReturnStmt _ :: _ => false
  | .LetStmt _ value :: rest => safeE value && noRetB rest
  | .ExpressionStmt e :: rest => safeE e && noRetB rest

end

/-- A return-free object: no `ReturnValue` constructor at the top, and any
function value inside carries a return-safe body. -/
def safeO : Object → Bool
  | .Integer _ => true
  | .Complex _ _ => true
  | .Boolean _ => true
  | .Null => true
  | .ReturnValue _ => false
  | .Function _ body _ => safeBody body
  | .DeclareVariable => true

/-- Every binding of a frame holds a return-free object. -/
def frameSafe (fr : Frame) : Bool :=
  fr.bindings.all fun p => safeO p.2

/-- Every binding of every frame of the store holds a return-free
object. -/
def safeStore (s : EnvStore) : Bool :=
  s.all frameSafe

/-- What a block-position statement may produce: a return-free object, or
one single layer of `ReturnValue` around a return-free object. -/
def blockRes (o : Object) : Prop :=
  safeO o = true ∨ ∃ v, o = .ReturnValue v ∧ safeO v = true

/-- Per-statement refinement of `blockRes`: a `let` produces the
`DeclareVariable` sentinel, a `return` produces a single-layer
`ReturnValue`. -/
def stmtRes : Statement → Object → Prop
  | .LetStmt _ _, o => o = .DeclareVariable
  | .ReturnStmt _, o => ∃ v, o = .ReturnValue v ∧ safeO v = true
  | .ExpressionStmt _, o => blockRes o

/-- The induction package carried through the fuel recursion of `eval`:
on return-safe inputs and stores, an `ok` outcome keeps the store
return-free, statement results follow `stmtRes`, and value-position
expressions produce return-free objects. -/
def EvOK (ev : Ev) : Prop :=
  (∀ stmt s h o s2, stmtSafe stmt = true → safeStore s = true →
    ev stmt s h = .ok (o, s2) → safeStore s2 = true ∧ stmtRes stmt o) ∧
  (∀ e s h o s2, safeE e = true → safeStore s = true →
    ev (.ExpressionStmt e) s h = .ok (o, s2) → safeStore s2 = true ∧ safeO o = true)

/-- The program `let x = 5; let f = fn() { x; }; let x = 6; f();`: the
binding seen by the closure is overwritten after the function value is
created. -/
def lateBindOverwriteProgram : List Statement :=
  [ .LetStmt "x" (.Integer 5),
    .LetStmt "f" (.Function [] [.ExpressionStmt (.Ident "x")]),
    .LetStmt "x" (.Integer 6),
    .ExpressionStmt (.Call (.Ident "f") []) ]

/-- The program `let f = fn() { x; }; let x = 5; f();`: the binding seen by
the closure is only added after the function value is created. -/
def lateBindAddProgram : List Statement :=
  [ .LetStmt "f" (.Function [] [.ExpressionStmt (.Ident "x")]),
    .LetStmt "x" (.Integer 5),
    .ExpressionStmt (.Call (.Ident "f") []) ]

/-- The program `return if (true) { return 2; };`: a `return` whose value
expression is an `if` that itself returns. -/
def returnNestProgram : List Statement :=
  [.ReturnStmt (.IfExpr (.Boolean true) [.ReturnStmt (.Integer 2)] [])]

/-- The program `9; return 2 * 5; 8;` from the spec and the repository's
own `eval_return_expr` test. -/
def returnDemoProgram : List Statement :=
  [ .ExpressionStmt (.Integer 9),
    .ReturnStmt (.Infix (.Integer 2) .ASTERISK (.Integer 5)),
    .ExpressionStmt (.Integer 8) ]

/-- The expression `((-1) + 4i) * ((-1) - 4i)` from the spec and the
repository's own `eval_complex` test. -/
def complexDemoExpr : Expression :=
  .Infix (.Infix (.Prefix .MINUS (.Integer 1)) .PLUS (.Complex 0 4)) .ASTERISK
    (.Infix (.Prefix .MINUS (.Integer 1)) .MINUS (.Complex 0 4))

/-- A heap holding an empty array (handle 0) and the integers 1 (handle 1)
and 2 (handle 2), the starting point of the `push(push([], 1), 2)`
scenario. -/
def heap0 : builtin.Heap := [.Array [], .Integer 1, .Integer 2]

@[simp] theorem Res.bind_ok {α β : Type} (a : α) (f : α → Res β) :
    Res.bind (.ok a) f = f a := rfl

@[simp] theorem Res.bind_err {α β : Type} (e : MonkeyErr) (f : α → Res β) :
    Res.bind (.err e) f = .err e := rfl

@[simp] theorem Res.bind_panicked {α β : Type} (f : α → Res β) :
    Res.bind .panicked f = .panicked := rfl

@[simp] theorem Res.bind_outOfFuel {α β : Type} (f : α → Res β) :
    Res.bind .outOfFuel f = .outOfFuel := rfl

theorem safeStore_get {s : EnvStore} {h : Nat} {fr : Frame}
    (hs : safeStore s = true) (hget : s.get? h = some fr) : frameSafe fr = true := by
  have hmem : fr ∈ s := List.get?_mem hget
  exact (List.all_eq_true.mp hs) fr hmem

theorem lookupBinding_safe {l : List (String × Object)} {name : String} {v : Object}
    (hl : (l.all fun p => safeO p.2) = true) (hfind : lookupBinding l name = some v) :
    safeO v = true := by
  induction l with
  | nil => simp [lookupBinding] at hfind
  | cons p rest ih =>
    rw [List.all_cons, Bool.and_eq_true] at hl
    obtain ⟨hp, hrest⟩ := hl
    obtain ⟨k, w⟩ := p
    unfold lookupBinding at hfind
    split at hfind
    · cases hfind; exact hp
    · exact ih hrest hfind

theorem envGetAux_safe {g : Nat} {s : EnvStore} {h : Nat} {name : String} {v : Object}
    (hs : safeStore s = true) (hget : envGetAux g s h name = some v) :
    safeO v = true := by
  induction g generalizing h with
  | zero => simp [envGetAux] at hget
  | succ g ih =>
    unfold envGetAux at hget
    split at hget
    · cases hget
    · rename_i fr hfr
      split at hget
      · rename_i w hlook
        cases hget
        exact lookupBinding_safe (safeStore_get hs hfr) hlook
      · rename_i hlook
        split at hget
        · cases hget
        · exact ih hget

theorem Environment.get_safe {s : EnvStore} {h : Nat} {name : String} {v : Object}
    (hs : safeStore s = true) (hget : Environment.get s h name = some v) :
    safeO v = true :=
  envGetAux_safe hs hget

theorem setBinding_safe {l : List (String × Object)} {name : String} {value : Object}
    (hl : (l.all fun p => safeO p.2) = true) (hv : safeO value = true) :
    ((setBinding l name value).all fun p => safeO p.2) = true := by
  induction l with
  | nil => simp [setBinding, hv]
  | cons p rest ih =>
    rw [List.all_cons, Bool.and_eq_true] at hl
    obtain ⟨hp, hrest⟩ := hl
    obtain ⟨k, w⟩ := p
    unfold setBinding
    split
    · rw [List.all_cons, Bool.and_eq_true]
      exact ⟨hv, hrest⟩
    · rw [List.all_cons, Bool.and_eq_true]
      exact ⟨hp, ih hrest⟩

theorem all_set {s : List Frame} {h : Nat} {fr : Frame}
    (hs : s.all frameSafe = true) (hfr : frameSafe fr = true) :
    (s.set h fr).all frameSafe = true := by
  induction s generalizing h with
  | nil => simp at hs ⊢
  | cons x rest ih =>
    rw [List.all_cons, Bool.and_eq_true] at hs
    obtain ⟨hx, hrest⟩ := hs
    cases h with
    | zero =>
      simp only [List.set]
      rw [List.all_cons, Bool.and_eq_true]
      exact ⟨hfr, hrest⟩
    | succ h =>
      simp only [List.set]
      rw [List.all_cons, Bool.and_eq_true]
      exact ⟨hx, ih hrest⟩

theorem set_fst (s : EnvStore) (h : Nat) (name : String) (value : Object) :
    (Environment.set s h name value).1 = .DeclareVariable := by
  unfold Environment.set
  split <;> rfl

theorem set_safeStore {s : EnvStore} (h : Nat) (name : String) {value : Object}
    (hs : safeStore s = true) (hv : safeO value = true) :
    safeStore (Environment.set s h name value).2 = true := by
  unfold Environment.set
  split
  · rename_i fr hfr
    have hfs : frameSafe fr = true := safeStore_get hs hfr
    have hupd : frameSafe { fr with bindings := setBinding fr.bindings name value } = true := by
      unfold frameSafe at *
      exact setBinding_safe hfs hv
    exact all_set hs hupd
  · exact hs

theorem append_safeStore {s : EnvStore} {fr : Frame}
    (hs : safeStore s = true) (hfr : frameSafe fr = true) :
    safeStore (s ++ [fr]) = true := by
  unfold safeStore at *
  rw [List.all_append]
  simp [hs, hfr]

theorem bindParams_safe {params : List String} {args : List Object}
    {s s2 : EnvStore} {h : Nat}
    (hs : safeStore s = true) (hargs : (args.all safeO) = true)
    (hbind : bindParams params args s h = .ok s2) : safeStore s2 = true := by
  induction params generalizing args s with
  | nil => cases hbind; exact hs
  | cons p ps ih =>
    cases args with
    | nil => cases hbind
    | cons a rest =>
      rw [List.all_cons, Bool.and_eq_true] at hargs
      obtain ⟨ha, hrest⟩ := hargs
      exact ih (set_safeStore h p hs ha) hrest hbind

theorem new_enclosed_snd_safe {s : EnvStore} {env : Nat} (hs : safeStore s = true) :
    safeStore (Environment.new_enclosed s env).2 = true := by
  unfold Environment.new_enclosed
  exact append_safeStore hs (by simp [frameSafe])

theorem extended_function_env_safe {params : List String} {args : List Object}
    {s s2 : EnvStore} {env h : Nat}
    (hs : safeStore s = true) (hargs : (args.all safeO) = true)
    (hext : extended_function_env params args s env = .ok (h, s2)) :
    safeStore s2 = true := by
  unfold extended_function_env at hext
  cases hbind : bindParams params args (Environment.new_enclosed s env).2
      (Environment.new_enclosed s env).1 with
  | ok s3 =>
    rw [hbind, Res.bind_ok] at hext
    cases hext
    exact bindParams_safe (new_enclosed_snd_safe hs) hargs hbind
  | err e => rw [hbind, Res.bind_err] at hext; cases hext
  | panicked => rw [hbind, Res.bind_panicked] at hext; cases hext
  | outOfFuel => rw [hbind, Res.bind_outOfFuel] at hext; cases hext

theorem eval_bang_safe {r o : Object} (heq : eval_bang_operator_expr r = .ok o) :
    safeO o = true := by
  unfold eval_bang_operator_expr at heq
  split at heq <;> (cases heq; rfl)

theorem eval_minus_safe {r o : Object} (heq : eval_minus_operator_expr r = .ok o) :
    safeO o = true := by
  unfold eval_minus_operator_expr at heq
  split at heq
  · cases heq; rfl
  · cases heq; rfl
  · cases heq

theorem eval_prefix_safe {op : Token} {r o : Object}
    (heq : eval_prefix_expr op r = .ok o) : safeO o = true := by
  unfold eval_prefix_expr at heq
  split at heq
  · exact eval_bang_safe heq
  · exact eval_minus_safe heq
  · cases heq

theorem eval_integer_infix_safe {op : Token} {a b : Int} {o : Object}
    (heq : eval_integer_infix_expr op a b = .ok o) : safeO o = true := by
  unfold eval_integer_infix_expr at heq
  split at heq <;>
    first
      | (cases heq; rfl)
      | cases heq
      | (split at heq <;> first | (cases heq; rfl) | cases heq)

theorem eval_complex_infix_safe {op : Token} {a b c d : Int} {o : Object}
    (heq : eval_complex_infix_expr op a b c d = .ok o) : safeO o = true := by
  unfold eval_complex_infix_expr at heq
  split at heq <;> first | (cases heq; rfl) | cases heq

theorem eval_num_infix_safe {op : Token} {l r : Object} {o : Object}
    (heq : eval_num_infix_expr op l r = .ok o) : safeO o = true := by
  unfold eval_num_infix_expr at heq
  split at heq
  · split at heq
    · exact eval_integer_infix_safe heq
    · exact eval_complex_infix_safe heq
  · cases heq
  · cases heq

theorem eval_infix_safe {op : Token} {l r : Object} {o : Object}
    (heq : eval_infix_expr op l r = .ok o) : safeO o = true := by
  unfold eval_infix_expr at heq
  split at heq
  · exact eval_num_infix_safe heq
  · split at heq
    · split at heq
      · split at heq <;> (cases heq; rfl)
      · split at heq <;> (cases heq; rfl)
      · cases heq
    · cases heq

theorem eval_identifier_safe {ident : String} {s : EnvStore} {h : Nat} {o : Object}
    (hs : safeStore s = true) (heq : eval_identifier ident s h = .ok o) :
    safeO o = true := by
  unfold eval_identifier at heq
  split at heq
  · rename_i v hget
    cases heq
    exact Environment.get_safe hs hget
  · cases heq

theorem stmtRes_blockRes {st : Statement} {o : Object} (hr : stmtRes st o) :
    blockRes o := by
  cases st with
  | LetStmt n v => exact Or.inl (hr ▸ rfl)
  | ReturnStmt v => exact Or.inr hr
  | ExpressionStmt e => exact hr

theorem stmtRes_return {st : Statement} {v : Object}
    (hr : stmtRes st (.ReturnValue v)) : safeO v = true := by
  cases st with
  | LetStmt n w => cases hr
  | ReturnStmt w =>
    obtain ⟨u, hu, hsafe⟩ := hr
    cases hu
    exact hsafe
  | ExpressionStmt e =>
    cases hr with
    | inl hl => simp [safeO] at hl
    | inr hrr =>
      obtain ⟨u, hu, hsafe⟩ := hrr
      cases hu
      exact hsafe

theorem eval_stmtsF_blockRes {ev : Ev} (hev : EvOK ev) {block : BlockStmt} :
    ∀ {s : EnvStore} {h : Nat} {o : Object} {s2 : EnvStore},
      safeBody block = true → safeStore s = true →
      eval_stmtsF ev block s h = .ok (o, s2) →
      safeStore s2 = true ∧ blockRes o := by
  induction block with
  | nil =>
    intro s h o s2 _ hs heq
    cases heq
    exact ⟨hs, Or.inl rfl⟩
  | cons st rest ih =>
    intro s h o s2 hsafe hs heq
    unfold safeBody at hsafe
    rw [Bool.and_eq_true] at hsafe
    obtain ⟨hst, hrest⟩ := hsafe
    unfold eval_stmtsF at heq
    cases hev1 : ev st s h with
    | ok p =>
      obtain ⟨r, s1⟩ := p
      rw [hev1] at heq
      simp only [Res.bind_ok] at heq
      obtain ⟨hs1, hres⟩ := hev.1 st s h r s1 hst hs hev1
      split at heq
      · cases heq
        exact ⟨hs1, Or.inr ⟨_, rfl, stmtRes_return hres⟩⟩
      · cases rest with
        | nil =>
          cases heq
          exact ⟨hs1, stmtRes_blockRes hres⟩
        | cons st2 rest2 => exact ih hrest hs1 heq
    | err e => rw [hev1, Res.bind_err] at heq; cases heq
    | panicked => rw [hev1, Res.bind_panicked] at heq; cases heq
    | outOfFuel => rw [hev1, Res.bind_outOfFuel] at heq; cases heq

theorem eval_stmtsF_noRet {ev : Ev} (hev : EvOK ev) {block : BlockStmt} :
    ∀ {s : EnvStore} {h : Nat} {o : Object} {s2 : EnvStore},
      noRetB block = true → safeStore s = true →
      eval_stmtsF ev block s h = .ok (o, s2) →
      safeStore s2 = true ∧ safeO o = true := by
  induction block with
  | nil =>
    intro s h o s2 _ hs heq
    cases heq
    exact ⟨hs, rfl⟩
  | cons st rest ih =>
    intro s h o s2 hsafe hs heq
    unfold eval_stmtsF at heq
    cases hev1 : ev st s h with
    | ok p =>
      obtain ⟨r, s1⟩ := p
      rw [hev1] at heq
      simp only [Res.bind_ok] at heq
      have hro : safeStore s1 = true ∧ safeO r = true ∧ noRetB rest = true := by
        cases st with
        | LetStmt name value =>
          unfold noRetB at hsafe
          rw [Bool.and_eq_true] at hsafe
          obtain ⟨hval, hrest⟩ := hsafe
          obtain ⟨hs1, hres⟩ := hev.1 (.LetStmt name value) s h r s1 hval hs hev1
          exact ⟨hs1, hres ▸ rfl, hrest⟩
        | ReturnStmt value => simp [noRetB] at hsafe
        | ExpressionStmt e =>
          unfold noRetB at hsafe
          rw [Bool.and_eq_true] at hsafe
          obtain ⟨hval, hrest⟩ := hsafe
          obtain ⟨hs1, hres⟩ := hev.2 e s h r s1 hval hs hev1
          exact ⟨hs1, hres, hrest⟩
      obtain ⟨hs1, hr, hrest⟩ := hro
      split at heq
      · simp [safeO] at hr
      · cases rest with
        | nil =>
          cases heq
          exact ⟨hs1, hr⟩
        | cons st2 rest2 => exact ih hrest hs1 heq
    | err e => rw [hev1, Res.bind_err] at heq; cases heq
    | panicked => rw [hev1, Res.bind_panicked] at heq; cases heq
    | outOfFuel => rw [hev1, Res.bind_outOfFuel] at heq; cases heq

theorem eval_expressionsF_safe {ev : Ev} (hev : EvOK ev) {es : List Expression} :
    ∀ {s : EnvStore} {h : Nat} {os : List Object} {s2 : EnvStore},
      safeEList es = true → safeStore s = true →
      eval_expressionsF ev es s h = .ok (os, s2) →
      safeStore s2 = true ∧ os.all safeO = true := by
  induction es with
  | nil =>
    intro s h os s2 _ hs heq
    cases heq
    exact ⟨hs, rfl⟩
  | cons e rest ih =>
    intro s h os s2 hsafe hs heq
    unfold safeEList at hsafe
    rw [Bool.and_eq_true] at hsafe
    obtain ⟨he, hrest⟩ := hsafe
    unfold eval_expressionsF at heq
    cases hev1 : ev (.ExpressionStmt e) s h with
    | ok p =>
      obtain ⟨r, s1⟩ := p
      rw [hev1] at heq
      simp only [Res.bind_ok] at heq
      obtain ⟨hs1, hr⟩ := hev.2 e s h r s1 he hs hev1
      cases hev2 : eval_expressionsF ev rest s1 h with
      | ok q =>
        obtain ⟨rs, s3⟩ := q
        rw [hev2] at heq
        simp only [Res.bind_ok] at heq
        cases heq
        obtain ⟨hs3, hrs⟩ := ih hrest hs1 hev2
        refine ⟨hs3, ?_⟩
        rw [List.all_cons, Bool.and_eq_true]
        exact ⟨hr, hrs⟩
      | err e2 => rw [hev2, Res.bind_err] at heq; cases heq
      | panicked => rw [hev2, Res.bind_panicked] at heq; cases heq
      | outOfFuel => rw [hev2, Res.bind_outOfFuel] at heq; cases heq
    | err e2 => rw [hev1, Res.bind_err] at heq; cases heq
    | panicked => rw [hev1, Res.bind_panicked] at heq; cases heq
    | outOfFuel => rw [hev1, Res.bind_outOfFuel] at heq; cases heq

theorem apply_functionF_safe {ev : Ev} (hev : EvOK ev) {f : Object}
    {args : List Object} {s : EnvStore} {o : Object} {s2 : EnvStore}
    (hf : safeO f = true) (hargs : args.all safeO = true)
    (hs : safeStore s = true)
    (happ : apply_functionF ev f args s = .ok (o, s2)) :
    safeStore s2 = true ∧ safeO o = true := by
  cases f with
  | Function parameter body env =>
    have hbody : safeBody body = true := hf
    simp only [apply_functionF] at happ
    cases hext : extended_function_env parameter args s env with
    | ok p =>
      obtain ⟨h2, s1⟩ := p
      rw [hext] at happ
      simp only [Res.bind_ok] at happ
      have hs1 : safeStore s1 = true := extended_function_env_safe hs hargs hext
      cases hrun : eval_stmtsF ev body s1 h2 with
      | ok q =>
        obtain ⟨evaluated, s3⟩ := q
        rw [hrun] at happ
        simp only [Res.bind_ok] at happ
        obtain ⟨hs3, hbr⟩ := eval_stmtsF_blockRes hev hbody hs1 hrun
        split at happ
        · cases happ
          refine ⟨hs3, ?_⟩
          cases hbr with
          | inl hl => simp [safeO] at hl
          | inr hr =>
            obtain ⟨u, hu, hsafe⟩ := hr
            cases hu
            exact hsafe
        · cases happ
          refine ⟨hs3, ?_⟩
          cases hbr with
          | inl hl => exact hl
          | inr hr =>
            rename_i hne
            obtain ⟨u, hu, husafe⟩ := hr
            exact absurd hu (fun hcon => hne u hcon)
      | err e => rw [hrun, Res.bind_err] at happ; cases happ
      | panicked => rw [hrun, Res.bind_panicked] at happ; cases happ
      | outOfFuel => rw [hrun, Res.bind_outOfFuel] at happ; cases happ
    | err e => rw [hext, Res.bind_err] at happ; cases happ
    | panicked => rw [hext, Res.bind_panicked] at happ; cases happ
    | outOfFuel => rw [hext, Res.bind_outOfFuel] at happ; cases happ
  | Integer v => cases happ
  | Complex a b => cases happ
  | Boolean b => cases happ
  | Null => cases happ
  | ReturnValue v => cases happ
  | DeclareVariable => cases happ

theorem bind_ok_inv {α β : Type} {x : Res α} {f : α → Res β} {b : β}
    (h : Res.bind x f = .ok b) : ∃ a, x = .ok a ∧ f a = .ok b := by
  cases x with
  | ok a => exact ⟨a, rfl, h⟩
  | err e => cases h
  | panicked => cases h
  | outOfFuel => cases h

/-- The central return-discipline invariant of the evaluator, proved by
induction on the fuel: on return-safe programs and stores, `eval` keeps
the store free of `ReturnValue`s, a `let` yields `DeclareVariable`, a
`return` yields one single layer of `ReturnValue`, and value-position
expressions never yield a `ReturnValue` at all. -/
theorem evalOK : ∀ fuel : Nat, EvOK (eval fuel) := by
  intro fuel
  induction fuel with
  | zero =>
    constructor
    · intro stmt s h o s2 _ _ heval
      cases heval
    · intro e s h o s2 _ _ heval
      cases heval
  | succ fuel ih =>
    have hexpr : ∀ e s h o s2, safeE e = true → safeStore s = true →
        eval (fuel + 1) (.ExpressionStmt e) s h = .ok (o, s2) →
        safeStore s2 = true ∧ safeO o = true := by
      intro e s h o s2 hsafe hs heval
      cases e with
      | Ident v =>
        simp only [eval] at heval
        obtain ⟨w, hid, h2⟩ := bind_ok_inv heval
        cases h2
        exact ⟨hs, eval_identifier_safe hs hid⟩
      | Integer v =>
        simp only [eval] at heval
        cases heval
        exact ⟨hs, rfl⟩
      | Complex a b =>
        simp only [eval] at heval
        cases heval
        exact ⟨hs, rfl⟩
      | Boolean b =>
        simp only [eval] at heval
        split at heval <;> (cases heval; exact ⟨hs, rfl⟩)
      | Prefix op right =>
        unfold safeE at hsafe
        simp only [eval] at heval
        obtain ⟨⟨r, s1⟩, hr, h2⟩ := bind_ok_inv heval
        simp only [] at h2
        obtain ⟨hs1, -⟩ := ih.2 right s h r s1 hsafe hs hr
        obtain ⟨w, hp, h3⟩ := bind_ok_inv h2
        cases h3
        exact ⟨hs1, eval_prefix_safe hp⟩
      | Infix left op right =>
        unfold safeE at hsafe
        rw [Bool.and_eq_true] at hsafe
        obtain ⟨hleft, hright⟩ := hsafe
        simp only [eval] at heval
        obtain ⟨⟨l, s1⟩, hl, h2⟩ := bind_ok_inv heval
        simp only [] at h2
        obtain ⟨hs1, -⟩ := ih.2 left s h l s1 hleft hs hl
        obtain ⟨⟨r, sr⟩, hr, h3⟩ := bind_ok_inv h2
        simp only [] at h3
        obtain ⟨hsr, -⟩ := ih.2 right s1 h r sr hright hs1 hr
        obtain ⟨w, hop, h4⟩ := bind_ok_inv h3
        cases h4
        exact ⟨hsr, eval_infix_safe hop⟩
      | IfExpr c q a =>
        unfold safeE at hsafe
        rw [Bool.and_eq_true, Bool.and_eq_true] at hsafe
        obtain ⟨⟨hc1, hq⟩, ha⟩ := hsafe
        simp only [eval] at heval
        obtain ⟨⟨cv, s1⟩, hc, h2⟩ := bind_ok_inv heval
        simp only [] at h2
        obtain ⟨hs1, -⟩ := ih.2 c s h cv s1 hc1 hs hc
        unfold eval_if_exprF at h2
        split at h2
        · exact eval_stmtsF_noRet ih hq hs1 h2
        · split at h2
          · exact eval_stmtsF_noRet ih ha hs1 h2
          · cases h2
            exact ⟨hs1, rfl⟩
      | Function p body =>
        simp only [eval] at heval
        cases heval
        refine ⟨hs, ?_⟩
        unfold safeE at hsafe
        exact hsafe
      | Call f argsE =>
        unfold safeE at hsafe
        rw [Bool.and_eq_true] at hsafe
        obtain ⟨hf1, hargs1⟩ := hsafe
        simp only [eval] at heval
        obtain ⟨⟨fv, s1⟩, hf, h2⟩ := bind_ok_inv heval
        simp only [] at h2
        obtain ⟨hs1, hfv⟩ := ih.2 f s h fv s1 hf1 hs hf
        obtain ⟨⟨argvs, sa⟩, hargs, h3⟩ := bind_ok_inv h2
        simp only [] at h3
        obtain ⟨hsa, hargvs⟩ := eval_expressionsF_safe ih hargs1 hs1 hargs
        exact apply_functionF_safe ih hfv hargvs hsa h3
    refine ⟨?_, hexpr⟩
    intro stmt s h o s2 hsafe hs heval
    cases stmt with
    | LetStmt name value =>
      have hval : safeE value = true := hsafe
      simp only [eval] at heval
      obtain ⟨⟨v, s1⟩, hv, h2⟩ := bind_ok_inv heval
      simp only [] at h2
      obtain ⟨hs1, hvsafe⟩ := ih.2 value s h v s1 hval hs hv
      have hp : Environment.set s1 h name v = (o, s2) := by
        injection h2
      have hfst := set_fst s1 h name v
      rw [hp] at hfst
      constructor
      · have hsnd := set_safeStore h name hs1 hvsafe
        rw [hp] at hsnd
        exact hsnd
      · exact hfst
    | ReturnStmt value =>
      have hval : safeE value = true := hsafe
      simp only [eval] at heval
      obtain ⟨⟨v, s1⟩, hv, h2⟩ := bind_ok_inv heval
      simp only [] at h2
      obtain ⟨hs1, hvsafe⟩ := ih.2 value s h v s1 hval hs hv
      cases h2
      exact ⟨hs1, ⟨v, rfl, hvsafe⟩⟩
    | ExpressionStmt e =>
      cases e
      case IfExpr c q a =>
        have hsafe2 : (safeE c && safeBody q && safeBody a) = true := hsafe
        rw [Bool.and_eq_true, Bool.and_eq_true] at hsafe2
        obtain ⟨⟨hc1, hq⟩, ha⟩ := hsafe2
        simp only [eval] at heval
        obtain ⟨⟨cv, s1⟩, hc, h2⟩ := bind_ok_inv heval
        simp only [] at h2
        obtain ⟨hs1, -⟩ := ih.2 c s h cv s1 hc1 hs hc
        unfold eval_if_exprF at h2
        split at h2
        · exact eval_stmtsF_blockRes ih hq hs1 h2
        · split at h2
          · exact eval_stmtsF_blockRes ih ha hs1 h2
          · cases h2
            exact ⟨hs1, Or.inl rfl⟩
      all_goals
        obtain ⟨ha, hb⟩ := hexpr _ s h o s2 hsafe hs heval
        exact ⟨ha, Or.inl hb⟩

theorem eval_programF_safe {ev : Ev} (hev : EvOK ev) {stmts : List Statement} :
    ∀ {s : EnvStore} {h : Nat} {o : Object} {s2 : EnvStore},
      safeBody stmts = true → safeStore s = true →
      eval_programF ev stmts s h = .ok (o, s2) →
      safeStore s2 = true ∧ safeO o = true := by
  induction stmts with
  | nil =>
    intro s h o s2 _ hs heq
    cases heq
    exact ⟨hs, rfl⟩
  | cons st rest ih =>
    intro s h o s2 hsafe hs heq
    unfold safeBody at hsafe
    rw [Bool.and_eq_true] at hsafe
    obtain ⟨hst, hrest⟩ := hsafe
    unfold eval_programF at heq
    obtain ⟨⟨r, s1⟩, hev1, h2⟩ := bind_ok_inv heq
    simp only [] at h2
    obtain ⟨hs1, hres⟩ := hev.1 st s h r s1 hst hs hev1
    split at h2
    · cases h2
      exact ⟨hs1, stmtRes_return hres⟩
    · cases rest with
      | nil =>
        cases h2
        refine ⟨hs1, ?_⟩
        cases stmtRes_blockRes hres with
        | inl hl => exact hl
        | inr hr =>
          rename_i hne
          obtain ⟨u, hu, husafe⟩ := hr
          exact absurd hu (fun hc => hne u hc)
      | cons st2 rest2 => exact ih hrest hs1 h2

/-- C1: evaluating a `Function` expression yields a `Function` object
holding the parameters, the body and a shared reference (handle) to the
environment current at its definition site; the body is not evaluated and
the store is untouched.  Consequently a binding added to or overwritten in
the defining environment after the function value is created is seen by a
later call: `let x = 5; let f = fn() { x; }; let x = 6; f();` evaluates to
`Integer 6`, and `let f = fn() { x; }; let x = 5; f();` to `Integer 5`. -/
theorem C1_function_captures_env_by_shared_reference :
    (∀ (fuel : Nat) (s : EnvStore) (h : Nat) (parameter : List String)
        (body : BlockStmt),
      eval (fuel + 1) (.ExpressionStmt (.Function parameter body)) s h =
        .ok (.Function parameter body h, s)) ∧
    (∃ s2, eval_program 10 lateBindOverwriteProgram initStore 0 =
      .ok (.Integer 6, s2)) ∧
    (∃ s2, eval_program 10 lateBindAddProgram initStore 0 =
      .ok (.Integer 5, s2)) :=
  ⟨fun _ _ _ _ _ => rfl, ⟨_, rfl⟩, ⟨_, rfl⟩⟩

/-- C2 counterexample: in the program `return if (true) { return 2; };`
the `return` statement evaluates to a nested
`ReturnValue (ReturnValue 2)`, and the program's final result is the
`ReturnValue (Integer 2)` left over after `eval_program` unwraps a single
layer — contradicting both that `ReturnValue` never nests and that it
never appears as the final result of `eval_program`. -/
theorem C2_counterexample :
    eval 10 (.ReturnStmt (.IfExpr (.Boolean true) [.ReturnStmt (.Integer 2)] []))
        initStore 0 =
      .ok (.ReturnValue (.ReturnValue (.Integer 2)), initStore) ∧
    eval_program 10 returnNestProgram initStore 0 =
      .ok (.ReturnValue (.Integer 2), initStore) :=
  ⟨rfl, rfl⟩

/-- C2 (amended): for return-safe programs — those in which the value
expression of a `let` or `return`, and every other value-position
expression, contains no `if` block with a (possibly nested) top-level
`return` — the claimed discipline holds: the final result of
`eval_program` is never a `ReturnValue`, a function call's result is never
a `ReturnValue` (it is unwrapped at the nearest enclosing call), `let`
yields the `DeclareVariable` sentinel and never stores a `ReturnValue`
into an environment, and a statement produces at most one single layer of
`ReturnValue`. -/
theorem C2_return_discipline (fuel : Nat) (s : EnvStore) (h : Nat)
    (hs : safeStore s = true) :
    (∀ stmts o s2, safeBody stmts = true →
        eval_program fuel stmts s h = .ok (o, s2) →
        safeO o = true ∧ safeStore s2 = true) ∧
    (∀ f args o s2, safeO f = true → (args.all safeO) = true →
        apply_function fuel f args s = .ok (o, s2) →
        safeO o = true ∧ safeStore s2 = true) ∧
    (∀ stmt o s2, stmtSafe stmt = true →
        eval fuel stmt s h = .ok (o, s2) →
        safeStore s2 = true ∧ stmtRes stmt o) := by
  refine ⟨?_, ?_, ?_⟩
  · intro stmts o s2 hsafe hrun
    obtain ⟨h1, h2⟩ := eval_programF_safe (evalOK fuel) hsafe hs hrun
    exact ⟨h2, h1⟩
  · intro f args o s2 hf hargs happ
    obtain ⟨h1, h2⟩ := apply_functionF_safe (evalOK fuel) hf hargs hs happ
    exact ⟨h2, h1⟩
  · intro stmt o s2 hsafe heval
    exact (evalOK fuel).1 stmt s h o s2 hsafe hs heval

/-- C2 witness: the amended discipline applied to the root store; as a
sample consequence, the repository's own nested-`if` test program
`if (10 > 1) { if (12 > 2) { return 10; } return 1; }` is return-safe and
evaluates to the unwrapped `Integer 10`. -/
theorem C2_return_discipline_witness :
    safeStore initStore = true ∧
    safeBody
      [ Statement.ExpressionStmt (.IfExpr (.Infix (.Integer 10) .GT (.Integer 1))
          [ .ExpressionStmt (.IfExpr (.Infix (.Integer 12) .GT (.Integer 2))
              [.ReturnStmt (.Integer 10)] []),
            .ReturnStmt (.Integer 1) ] []) ] = true ∧
    eval_program 10
      [ Statement.ExpressionStmt (.IfExpr (.Infix (.Integer 10) .GT (.Integer 1))
          [ .ExpressionStmt (.IfExpr (.Infix (.Integer 12) .GT (.Integer 2))
              [.ReturnStmt (.Integer 10)] []),
            .ReturnStmt (.Integer 1) ] []) ] initStore 0 =
      .ok (.Integer 10, initStore) ∧
    safeO (.Integer 10) = true := by
  refine ⟨rfl, rfl, rfl, ?_⟩
  exact ((C2_return_discipline 10 initStore 0 rfl).1
    [ Statement.ExpressionStmt (.IfExpr (.Infix (.Integer 10) .GT (.Integer 1))
        [ .ExpressionStmt (.IfExpr (.Infix (.Integer 12) .GT (.Integer 2))
            [.ReturnStmt (.Integer 10)] []),
          .ReturnStmt (.Integer 1) ] []) ]
    (.Integer 10) initStore rfl rfl).1

/-- C5: `eval_program` evaluates statements in order; as soon as a
statement's result is a `ReturnValue` it stops and returns the unwrapped
inner value, independently of the remaining statements (which are never
evaluated); on a non-`ReturnValue` result it continues with the rest from
the updated store.  In particular `9; return 2 * 5; 8;` evaluates to
`Integer 10`. -/
theorem C5_eval_program_return_short_circuit (fuel : Nat) (stmt : Statement)
    (rest : List Statement) (s s1 : EnvStore) (h : Nat) :
    (∀ v, eval fuel stmt s h = .ok (.ReturnValue v, s1) →
        eval_program fuel (stmt :: rest) s h = .ok (v, s1)) ∧
    (∀ r, eval fuel stmt s h = .ok (r, s1) → (∀ v, r ≠ .ReturnValue v) →
        rest ≠ [] →
        eval_program fuel (stmt :: rest) s h = eval_program fuel rest s1 h) ∧
    eval_program 10 returnDemoProgram initStore 0 = .ok (.Integer 10, initStore) := by
  refine ⟨?_, ?_, rfl⟩
  · intro v hret
    unfold eval_program eval_programF
    rw [hret]
    simp only [Res.bind_ok]
  · intro r hok hnr hrest
    cases rest with
    | nil => exact absurd rfl hrest
    | cons st2 rest2 =>
      unfold eval_program eval_programF
      rw [hok]
      simp only [Res.bind_ok]
      cases r with
      | ReturnValue v => exact absurd rfl (hnr v)
      | Integer v => rfl
      | Complex a b => rfl
      | Boolean b => rfl
      | Null => rfl
      | Function p b e => rfl
      | DeclareVariable => rfl

/-- C5 witness: a one-statement program `return 2;` stops at the `return`
and yields the unwrapped `Integer 2`. -/
theorem C5_eval_program_return_short_circuit_witness :
    eval_program 10 [.ReturnStmt (.Integer 2)] initStore 0 =
      .ok (.Integer 2, initStore) :=
  (C5_eval_program_return_short_circuit 10 (.ReturnStmt (.Integer 2)) []
    initStore initStore 0).1 (.Integer 2) rfl

/-- C3: when both operands are numeric with zero imaginary part, infix
evaluation dispatches to integer semantics on the real parts: `+ - *` are
`i64` arithmetic, `/` is truncating division, `< > == !=` are `i64`
ordering/equality; and `Integer n` compares equal to `Complex n 0` under
`==`. -/
theorem C3_zero_imaginary_uses_integer_semantics (lf rt : Object) (a b : Int)
    (hl : lf.to_complex = some (.Complex a 0))
    (hr : rt.to_complex = some (.Complex b 0)) :
    (∀ op, eval_infix_expr op lf rt = eval_integer_infix_expr op a b) ∧
    eval_integer_infix_expr .PLUS a b = .ok (.Integer (a + b)) ∧
    eval_integer_infix_expr .MINUS a b = .ok (.Integer (a - b)) ∧
    eval_integer_infix_expr .ASTERISK a b = .ok (.Integer (a * b)) ∧
    (b ≠ 0 → eval_integer_infix_expr .SLASH a b = .ok (.Integer (a.tdiv b))) ∧
    eval_integer_infix_expr .LT a b = .ok (.Boolean (decide (a < b))) ∧
    eval_integer_infix_expr .GT a b = .ok (.Boolean (decide (b < a))) ∧
    eval_integer_infix_expr .EQ a b = .ok (.Boolean (decide (a = b))) ∧
    eval_integer_infix_expr .NOTEQ a b = .ok (.Boolean (!decide (a = b))) ∧
    (∀ n : Int, eval_infix_expr .EQ (.Integer n) (.Complex n 0) = .ok TRUE) := by
  refine ⟨?_, rfl, rfl, rfl, ?_, rfl, rfl, rfl, rfl, ?_⟩
  · intro op
    simp [eval_infix_expr, eval_num_infix_expr, hl, hr]
  · intro hb
    simp [eval_integer_infix_expr, hb]
  · intro n
    simp [eval_infix_expr, eval_num_infix_expr, Object.to_complex,
      eval_integer_infix_expr, TRUE]

/-- C3 witness: `Integer 7` and `Complex 4 0` take the integer path; for
instance `7 + 4` is `Integer 11`. -/
theorem C3_zero_imaginary_uses_integer_semantics_witness :
    Object.to_complex (.Integer 7) = some (.Complex 7 0) ∧
    Object.to_complex (.Complex 4 0) = some (.Complex 4 0) ∧
    eval_infix_expr .PLUS (.Integer 7) (.Complex 4 0) =
      eval_integer_infix_expr .PLUS 7 4 ∧
    eval_integer_infix_expr .PLUS 7 4 = .ok (.Integer 11) :=
  ⟨rfl, rfl,
    (C3_zero_imaginary_uses_integer_semantics (.Integer 7) (.Complex 4 0) 7 4
      rfl rfl).1 .PLUS,
    (C3_zero_imaginary_uses_integer_semantics (.Integer 7) (.Complex 4 0) 7 4
      rfl rfl).2.1⟩

/-- C4: infix dispatch is a three-way split.  Two numeric operands go to
numeric-infix evaluation; two operands of the same (non-numeric) kind
support exactly `==`/`!=`, returning structural equality, and every other
operator is `UnknownInfix`; operands of different kinds that are not both
numeric give `TypeMismatch`.  In particular a `Boolean` against an
`Integer` is `TypeMismatch` for every operator (an error value, not a
panic), and `true + false` is `UnknownInfix`. -/
theorem C4_infix_dispatch_trichotomy :
    (∀ op (l r : Object), l.to_complex.isSome = true → r.to_complex.isSome = true →
        eval_infix_expr op l r = eval_num_infix_expr op l r) ∧
    (∀ op (l r : Object), (l.to_complex.isSome && r.to_complex.isSome) = false →
        Object.is_same_type l r = true →
        eval_infix_expr .EQ l r = .ok (if objBeq l r then TRUE else FALSE) ∧
        eval_infix_expr .NOTEQ l r = .ok (if !objBeq l r then TRUE else FALSE) ∧
        (op ≠ .EQ → op ≠ .NOTEQ →
          eval_infix_expr op l r = .err (.EvalUnknownInfix l op r))) ∧
    (∀ op (l r : Object), (l.to_complex.isSome && r.to_complex.isSome) = false →
        Object.is_same_type l r = false →
        eval_infix_expr op l r = .err (.EvalTypeMismatch l op r)) ∧
    (∀ op (bv : Bool) (n : Int),
        eval_infix_expr op (.Boolean bv) (.Integer n) =
          .err (.EvalTypeMismatch (.Boolean bv) op (.Integer n))) ∧
    eval_infix_expr .PLUS TRUE FALSE = .err (.EvalUnknownInfix TRUE .PLUS FALSE) := by
  refine ⟨?_, ?_, ?_, ?_, rfl⟩
  · intro op l r hl hr
    simp [eval_infix_expr, hl, hr]
  · intro op l r hnum hsame
    refine ⟨?_, ?_, ?_⟩
    · simp [eval_infix_expr, hnum, hsame]
      split <;> rfl
    · simp [eval_infix_expr, hnum, hsame]
      split <;> rfl
    · intro hne1 hne2
      cases op <;>
        first
          | exact absurd rfl hne1
          | exact absurd rfl hne2
          | simp [eval_infix_expr, hnum, hsame]
  · intro op l r hnum hsame
    simp [eval_infix_expr, hnum, hsame]
  · intro op bv n
    cases op <;> rfl

/-- C6: when both operands are numeric and at least one has a nonzero
imaginary part, infix evaluation dispatches to complex semantics: `+ - *`
follow the standard complex rules with
`(a+bi)(c+di) = (ac-bd) + (ad+bc)i`, `==`/`!=` compare both components,
and `/ ^ < >` fail with `UnknownInfix`.  In particular
`((-1) + 4i) * ((-1) - 4i)` evaluates to `Complex 17 0`, still tagged
`Complex`. -/
theorem C6_complex_semantics (lf rt : Object) (a b c d : Int)
    (hl : lf.to_complex = some (.Complex a b))
    (hr : rt.to_complex = some (.Complex c d))
    (him : ¬(b = 0 ∧ d = 0)) :
    (∀ op, eval_infix_expr op lf rt = eval_complex_infix_expr op a b c d) ∧
    eval_complex_infix_expr .PLUS a b c d = .ok (.Complex (a + c) (b + d)) ∧
    eval_complex_infix_expr .MINUS a b c d = .ok (.Complex (a - c) (b - d)) ∧
    eval_complex_infix_expr .ASTERISK a b c d =
      .ok (.Complex (a * c - b * d) (a * d + b * c)) ∧
    eval_complex_infix_expr .EQ a b c d =
      .ok (.Boolean (decide (a = c) && decide (b = d))) ∧
    eval_complex_infix_expr .NOTEQ a b c d =
      .ok (.Boolean (!decide (a = c) || !decide (b = d))) ∧
    (∀ op, op = .SLASH ∨ op = .POWER ∨ op = .LT ∨ op = .GT →
        eval_complex_infix_expr op a b c d =
          .err (.EvalUnknownInfix (.Complex a b) op (.Complex c d))) ∧
    eval 10 (.ExpressionStmt complexDemoExpr) initStore 0 =
      .ok (.Complex 17 0, initStore) := by
  refine ⟨?_, rfl, rfl, rfl, rfl, rfl, ?_, rfl⟩
  · intro op
    simp [eval_infix_expr, eval_num_infix_expr, hl, hr, him]
  · intro op hop
    obtain h1 | h1 | h1 | h1 := hop <;> (cases h1; rfl)

/-- C6 witness: `Integer 3` against `Complex 0 1` (that is, `3 * i`) takes
the complex path; for instance `3 * i` is `Complex 0 3`. -/
theorem C6_complex_semantics_witness :
    Object.to_complex (.Integer 3) = some (.Complex 3 0) ∧
    Object.to_complex (.Complex 0 1) = some (.Complex 0 1) ∧
    ¬((0 : Int) = 0 ∧ (1 : Int) = 0) ∧
    eval_infix_expr .ASTERISK (.Integer 3) (.Complex 0 1) =
      eval_complex_infix_expr .ASTERISK 3 0 0 1 ∧
    eval_complex_infix_expr .ASTERISK 3 0 0 1 = .ok (.Complex 0 3) :=
  ⟨rfl, rfl, by simp,
    (C6_complex_semantics (.Integer 3) (.Complex 0 1) 3 0 0 1 rfl rfl
      (by simp)).1 .ASTERISK,
    by norm_num [eval_complex_infix_expr]⟩

/-- C7 counterexample: the claim says a non-negative exponent returns the
left operand raised to that exponent, but the `rt as u32` cast truncates
the exponent to its low 32 bits: `2 ^ 4294967296` evaluates to
`Integer 1`, although `2 ^ 4294967296 ≠ 1` mathematically. -/
theorem C7_counterexample :
    eval_integer_infix_expr .POWER 2 4294967296 = .ok (.Integer 1) ∧
    (2 : Int) ^ (4294967296 : Nat) ≠ 1 := by
  constructor
  · have h1 : Int.toNat 4294967296 % 4294967296 = 0 := by rfl
    norm_num [eval_integer_infix_expr, h1]
  · intro hcon
    have h2 : (2 : Int) ^ (1 : Nat) ≤ 2 ^ (4294967296 : Nat) :=
      pow_le_pow_right₀ (by norm_num) (by norm_num)
    rw [hcon] at h2
    norm_num at h2

/-- C7 (amended): the `^` operator on zero-imaginary operands fails with
`PowErr` exactly when the exponent is negative; for a non-negative
exponent it returns the left operand raised to the exponent reduced
modulo `2^32` (the `rt as u32` cast truncates the exponent to 32
bits). -/
theorem C7_pow_err_iff_negative_exponent (lf rt : Int) :
    (eval_integer_infix_expr .POWER lf rt = .err .EvalPowErr ↔ rt < 0) ∧
    (0 ≤ rt → eval_integer_infix_expr .POWER lf rt =
      .ok (.Integer (lf ^ (rt.toNat % 4294967296)))) := by
  constructor
  · constructor
    · intro heq
      by_contra hneg
      push_neg at hneg
      simp [eval_integer_infix_expr, hneg] at heq
    · intro hneg
      have hnot : ¬(0 ≤ rt) := by omega
      simp [eval_integer_infix_expr, hnot]
  · intro hpos
    simp [eval_integer_infix_expr, hpos]

/-- C7 witness: `2 ^ 3` at exponent `3 ≥ 0` gives
`Integer (2 ^ (3 % 2^32)) = Integer 8`, and `PowErr` does not occur. -/
theorem C7_pow_err_iff_negative_exponent_witness :
    (0 : Int) ≤ 3 ∧
    eval_integer_infix_expr .POWER 2 3 =
      .ok (.Integer ((2 : Int) ^ (Int.toNat 3 % 4294967296))) :=
  ⟨by norm_num, (C7_pow_err_iff_negative_exponent 2 3).2 (by norm_num)⟩

/-- C9: integer division is unguarded.  With a zero divisor `/` panics
(host `i64` division) rather than returning an evaluation error; with a
nonzero divisor it returns the truncating quotient; and for no divisor
does `/` return an `err` value. -/
theorem C9_division_by_zero_panics (lf rt : Int) :
    eval_integer_infix_expr .SLASH lf 0 = .panicked ∧
    (rt ≠ 0 → eval_integer_infix_expr .SLASH lf rt = .ok (.Integer (lf.tdiv rt))) ∧
    (∀ e, eval_integer_infix_expr .SLASH lf rt ≠ .err e) := by
  refine ⟨rfl, ?_, ?_⟩
  · intro hb
    simp [eval_integer_infix_expr, hb]
  · intro e
    unfold eval_integer_infix_expr
    by_cases hb : rt = 0
    · simp [hb]
    · simp [hb]

/-- C9 witness: `7 / 2` is `Integer 3` (truncating division), and
`7 / 0` panics. -/
theorem C9_division_by_zero_panics_witness :
    eval_integer_infix_expr .SLASH 7 0 = .panicked ∧
    ((7 : Int) ≠ 0 → True) ∧
    eval_integer_infix_expr .SLASH 7 2 = .ok (.Integer ((7 : Int).tdiv 2)) :=
  ⟨(C9_division_by_zero_panics 7 0).1, fun _ => trivial,
    (C9_division_by_zero_panics 7 2).2.1 (by norm_num)⟩

theorem bindParams_panic {params : List String} {args : List Object} :
    ∀ {s : EnvStore} {h : Nat}, args.length < params.length →
      bindParams params args s h = .panicked := by
  induction params generalizing args with
  | nil => intro s h hlt; simp at hlt
  | cons p ps ih =>
    intro s h hlt
    cases args with
    | nil => rfl
    | cons a rest =>
      unfold bindParams
      have hlt2 : rest.length < ps.length := by
        simp [List.length_cons] at hlt
        omega
      exact ih hlt2

theorem bindParams_take {params : List String} {args : List Object} :
    ∀ {s : EnvStore} {h : Nat},
      bindParams params args s h =
        bindParams params (args.take params.length) s h := by
  induction params generalizing args with
  | nil => intro s h; rfl
  | cons p ps ih =>
    intro s h
    cases args with
    | nil => rfl
    | cons a rest =>
      rw [List.length_cons, List.take_succ_cons]
      unfold bindParams
      exact ih

theorem bindParams_total {params : List String} {args : List Object} :
    ∀ (s : EnvStore) (h : Nat), params.length ≤ args.length →
      ∃ s2, bindParams params args s h = .ok s2 := by
  induction params generalizing args with
  | nil => intro s h hle; exact ⟨s, rfl⟩
  | cons p ps ih =>
    intro s h hle
    cases args with
    | nil => simp at hle
    | cons a rest =>
      have hle2 : ps.length ≤ rest.length := by
        simp [List.length_cons] at hle
        omega
      unfold bindParams
      exact ih _ _ hle2

/-- C8: `push(arr, v)` on an `Array` argument allocates a fresh box
holding a new array equal to `arr` with `v` appended, and the box the
argument points to still holds the old array afterwards (copy-on-write);
a non-`Array` first argument fails with `EvalErr`.  Concretely,
`push(push([], 1), 2)` yields an array whose elements are the boxes of
`1` and `2`, while the box of the intermediate empty array is
unchanged. -/
theorem C8_push_copy_on_write (heap : builtin.Heap) (h_arr h_v : Nat)
    (l : List Nat) (hget : heap.get? h_arr = some (.Array l)) :
    builtin.BuiltInFnt.call .Push [h_arr, h_v] heap =
      .ok (heap.length, heap ++ [.Array (l ++ [h_v])]) ∧
    (heap ++ [builtin.Object.Array (l ++ [h_v])]).get? h_arr =
      some (.Array l) ∧
    (∀ (heap2 : builtin.Heap) (g0 g1 : Nat) (o : builtin.Object),
        heap2.get? g0 = some o → (∀ l2, o ≠ .Array l2) →
        builtin.BuiltInFnt.call .Push [g0, g1] heap2 =
          .err (.EvalErr ("Argument to `push` must be array, got " ++ o.type))) ∧
    builtin.BuiltInFnt.call .Push [0, 1] heap0 = .ok (3, heap0 ++ [.Array [1]]) ∧
    builtin.BuiltInFnt.call .Push [3, 2] (heap0 ++ [.Array [1]]) =
      .ok (4, heap0 ++ [.Array [1], .Array [1, 2]]) ∧
    (heap0 ++ [builtin.Object.Array [1], builtin.Object.Array [1, 2]]).get? 0 =
      some (.Array []) ∧
    (heap0 ++ [builtin.Object.Array [1], builtin.Object.Array [1, 2]]).get? 1 =
      some (.Integer 1) ∧
    (heap0 ++ [builtin.Object.Array [1], builtin.Object.Array [1, 2]]).get? 2 =
      some (.Integer 2) := by
  have hget1 : heap[h_arr]? = some (builtin.Object.Array l) := by
    rw [← List.get?_eq_getElem?]
    exact hget
  refine ⟨?_, ?_, ?_, rfl, rfl, rfl, rfl, rfl⟩
  · simp [builtin.BuiltInFnt.call, hget1, builtin.GCBox.new]
  · have hlt : h_arr < heap.length := by
      obtain ⟨hlt, -⟩ := List.get?_eq_some.mp hget
      exact hlt
    rw [List.get?_eq_getElem?, List.getElem?_append_left hlt, hget1]
  · intro heap2 g0 g1 o hget2 hne
    have hget3 : heap2[g0]? = some o := by
      rw [← List.get?_eq_getElem?]
      exact hget2
    cases o with
    | Array l2 => exact absurd rfl (hne l2)
    | Integer v => simp [builtin.BuiltInFnt.call, hget3]
    | Boolean b => simp [builtin.BuiltInFnt.call, hget3]
    | String str => simp [builtin.BuiltInFnt.call, hget3]
    | Null => simp [builtin.BuiltInFnt.call, hget3]

/-- C8 witness: the general copy-on-write statement applied to the
concrete heap holding an empty array at box 0. -/
theorem C8_push_copy_on_write_witness :
    heap0.get? 0 = some (.Array []) ∧
    builtin.BuiltInFnt.call .Push [0, 1] heap0 =
      .ok (heap0.length, heap0 ++ [.Array ([] ++ [1])]) :=
  ⟨rfl, (C8_push_copy_on_write heap0 0 1 [] rfl).1⟩

/-- C10: calling a function does not check the argument count.  With
fewer arguments than parameters, binding hits an unguarded `unwrap` and
panics (no evaluation error); with at least as many arguments as
parameters binding succeeds, and the extra arguments are silently
discarded — the environment extension only depends on the first
`parameter.length` arguments. -/
theorem C10_arity_not_checked (parameter : List String) (args : List Object)
    (s : EnvStore) (env : Nat) :
    (args.length < parameter.length →
      extended_function_env parameter args s env = .panicked) ∧
    (extended_function_env parameter args s env =
      extended_function_env parameter (args.take parameter.length) s env) ∧
    (parameter.length ≤ args.length →
      ∃ s2, extended_function_env parameter args s env =
        .ok ((Environment.new_enclosed s env).1, s2)) ∧
    (∀ fuel body, args.length < parameter.length →
      apply_function fuel (.Function parameter body env) args s = .panicked) := by
  refine ⟨?_, ?_, ?_, ?_⟩
  · intro hlt
    unfold extended_function_env
    rw [bindParams_panic hlt]
    rfl
  · unfold extended_function_env
    rw [← bindParams_take]
  · intro hle
    obtain ⟨s2, hs2⟩ :=
      bindParams_total (Environment.new_enclosed s env).2
        (Environment.new_enclosed s env).1 hle
    unfold extended_function_env
    rw [hs2]
    exact ⟨s2, rfl⟩
  · intro fuel body hlt
    have hext : extended_function_env parameter args s env = .panicked := by
      unfold extended_function_env
      rw [bindParams_panic hlt]
      rfl
    simp [apply_function, apply_functionF, hext]

/-- C10 witness: a one-parameter function applied to zero arguments
panics both at environment extension and at `apply_function`. -/
theorem C10_arity_not_checked_witness :
    ([] : List Object).length < (["x"] : List String).length ∧
    extended_function_env ["x"] [] initStore 0 = .panicked ∧
    apply_function 5 (.Function ["x"] [.ExpressionStmt (.Ident "x")] 0) []
      initStore = .panicked :=
  ⟨by decide,
    (C10_arity_not_checked ["x"] [] initStore 0).1 (by decide),
    (C10_arity_not_checked ["x"] [] initStore 0).2.2.2 5
      [.ExpressionStmt (.Ident "x")] (by decide)⟩

/-- C4 witness: `true` against `1` is not numeric and not same-kind, so
every operator — here `+` — fails with `TypeMismatch`. -/
theorem C4_infix_dispatch_trichotomy_witness :
    ((Object.Boolean true).to_complex.isSome &&
      (Object.Integer 1).to_complex.isSome) = false ∧
    Object.is_same_type (.Boolean true) (.Integer 1) = false ∧
    eval_infix_expr .PLUS (.Boolean true) (.Integer 1) =
      .err (.EvalTypeMismatch (.Boolean true) .PLUS (.Integer 1)) :=
  ⟨rfl, rfl,
    C4_infix_dispatch_trichotomy.2.2.1 .PLUS (.Boolean true) (.Integer 1)
      rfl rfl⟩

end Monkey
